import Mathlib

/-
Verification development for the aura-prompt extension background/content
scripts. JavaScript strings are modelled as lists of characters; the
asynchronous, event-driven code is modelled by explicit state passing and,
for the streaming loop, by a step function parameterised over the point at
which a cancelSession call interleaves. Each definition is translated from
src/src/background.js or src/src/content.js; line references are given in
the doc comments.
-/

set_option maxRecDepth 100000

namespace AuraPrompt

/-- JavaScript strings are modelled as lists of characters. -/
abbrev Str := List Char

/-- Convert a Lean string literal to the character-list model. -/
def toL (s : String) : Str := s.data

/-- The whitespace class of the JavaScript regexes and of String.trim,
restricted to the ASCII range (space, tab, newline, carriage return,
vertical tab, form feed). -/
def isJsWs (c : Char) : Bool :=
  c = ' ' || c = '\t' || c = '\n' || c = '\r' || c = '\x0b' || c = '\x0c'

/-- JavaScript String.trim: drop leading and trailing whitespace. -/
def jsTrim (s : Str) : Str :=
  ((s.dropWhile isJsWs).reverse.dropWhile isJsWs).reverse

/-- content.js line 136, replace of every maximal whitespace run by a single
space. The flag records whether the previous character was part of a
whitespace run already rewritten. -/
def collapseWsAux : Bool → Str → Str
  | _, [] => []
  | inRun, c :: t =>
    if isJsWs c then
      if inRun then collapseWsAux true t else ' ' :: collapseWsAux true t
    else c :: collapseWsAux false t

/-- content.js cleanText (lines 134-139): collapse whitespace runs, then trim.
The intermediate replace of newline-bounded runs on line 137 is the identity
here because the collapse on line 136 leaves no newline character (every
newline is whitespace and is rewritten to a single space); this is proved in
collapseWs_no_newline below. -/
def cleanText (s : Str) : Str := jsTrim (collapseWsAux false s)

/-- The trailing ellipsis marker appended on truncation (content.js line 113). -/
def ellipsis : Str := ['.', '.', '.']

/-- content.js lines 112-114: limit the cleaned content to 2000 characters,
appending the ellipsis marker when truncation happens. -/
def limitContent (s : Str) : Str :=
  if 2000 < s.length then s.take 2000 ++ ellipsis else s

/-- content.js extractPageContent, final stages (lines 108-116): the raw
concatenated page text is cleaned and then length-limited. The DOM walk that
produces the raw text is outside the model; its output is the argument. -/
def extractPageContent (raw : Str) : Str := limitContent (cleanText raw)

/-- background.js lines 96-105: URL prefixes on which content scripts cannot
be injected. Each source regex is an anchored literal prefix. -/
def restrictedUrlPatterns : List Str :=
  [toL ("chrome://"), toL ("chrome-extension://"), toL ("moz-extension://"),
   toL ("edge-extension://"), toL ("file://"), toL ("about:"), toL ("data:"),
   toL ("blob:")]

/-- background.js isRestrictedUrl (lines 108-111). A missing url (undefined or
null, modelled as none) and the empty string are both falsy in the source
check, so both are classified restricted. -/
def isRestrictedUrl : Option Str → Bool
  | none => true
  | some u => if u.isEmpty then true
              else restrictedUrlPatterns.any (fun p => p.isPrefixOf u)

/-- Oracle for the two content-script probes and the injection attempt of a
single ensureContentScript call: the outcome of the first ping, the outcome
of the second ping, and whether scripting.executeScript succeeds. -/
structure ProbeEnv where
  probe1 : Bool
  probe2 : Bool
  injectOk : Bool
deriving DecidableEq

/-- Observable outcome of ensureContentScript: the returned readiness verdict,
the number of ping probes performed, the number of injection attempts, and
the settle delays (in milliseconds) awaited after injection. -/
structure EnsureOutcome where
  ready : Bool
  probes : Nat
  injections : Nat
  settleWaitsMs : List Nat
deriving DecidableEq

/-- background.js ensureContentScript (lines 150-179): restricted urls return
false immediately; otherwise ping once, and if not ready inject once, wait
500ms, ping again and return that verdict. A throwing injection is caught and
yields false. -/
def ensureContentScript (url : Option Str) (env : ProbeEnv) : EnsureOutcome :=
  if isRestrictedUrl url then ⟨false, 0, 0, []⟩
  else if env.probe1 then ⟨true, 1, 0, []⟩
  else if env.injectOk then ⟨env.probe2, 2, 1, [500]⟩
  else ⟨false, 1, 1, []⟩

/-- Outcome of a LanguageModel probe as seen by checkAPIAvailability:
the capability may be absent from self, the availability() call may throw,
or it reports an availability string. -/
inductive LMProbe where
  | absent
  | throws (msg : String)
  | reports (availability : String)
deriving DecidableEq

/-- Shape of the object returned by checkAPIAvailability: the available flag,
the status field when present, the reason field when present, and the message. -/
structure AvailResult where
  available : Bool
  status : Option String
  reason : Option String
  message : String
deriving DecidableEq

/-- background.js checkAPIAvailability (lines 703-754), as a total function of
the probed provider state. -/
def checkAPIAvailability : LMProbe → AvailResult
  | .absent =>
      ⟨false, none, some ("API_NOT_FOUND"),
       "Chrome Prompt API is not available. Please ensure you have Chrome 138+"⟩
  | .throws m =>
      ⟨false, none, some ("ERROR"), "Error checking availability: " ++ m⟩
  | .reports a =>
      if a = "available" then
        ⟨true, some ("ready"), none, "AI model is ready to use."⟩
      else if a = "downloadable" then
        ⟨true, some ("downloadable"), none,
         "AI model needs to be downloaded before first use."⟩
      else if a = "downloading" then
        ⟨false, some ("downloading"), none,
         "AI model is currently downloading. Please wait."⟩
      else if a = "unavailable" then
        ⟨false, some ("unavailable"), none,
         "AI model is not available on this device."⟩
      else
        ⟨false, some ("unknown"), none,
         "Unknown availability status: " ++ a⟩

/-- Cache keys (content hashes) and session ids are JavaScript strings. -/
abbrev Key := Str

/-- The triple of suggestion strings handled by the suggestion pipeline. -/
abbrev Suggs := List Str

/-- JavaScript Map.prototype.has on an insertion-ordered association list
whose keys are unique. -/
def jsMapHas {β : Type} : List (Key × β) → Key → Bool
  | [], _ => false
  | p :: t, k => if p.1 = k then true else jsMapHas t k

/-- JavaScript Map.prototype.set on an insertion-ordered association list
whose keys are unique: an existing key is updated in place (its insertion
position is kept), a new key is appended at the end. -/
def jsMapSet {β : Type} : List (Key × β) → Key → β → List (Key × β)
  | [], k, v => [(k, v)]
  | p :: t, k, v => if p.1 = k then (k, v) :: t else p :: jsMapSet t k v

/-- JavaScript Map.prototype.get on the association-list model. -/
def jsMapGet {β : Type} : List (Key × β) → Key → Option β
  | [], _ => none
  | p :: t, k => if p.1 = k then some p.2 else jsMapGet t k

/-- The suggestion cache: a JavaScript Map from content hashes to suggestion
triples, in insertion order (oldest first). -/
abbrev Cache := List (Key × Suggs)

/-- background.js lines 241-247: store the suggestions under the content hash,
then, if the size exceeds 50, delete the first (oldest) key. Returns the new
cache and the evicted key, if any. -/
def cacheInsert (c : Cache) (k : Key) (v : Suggs) : Cache × Option Key :=
  if 50 < (jsMapSet c k v).length then
    ((jsMapSet c k v).drop 1, (jsMapSet c k v).head?.map Prod.fst)
  else (jsMapSet c k v, none)

/-- background.js lines 776-782 (periodic cleanup): if the cache holds more
than 30 entries, delete the first 10 keys in insertion order. -/
def cacheCleanup (c : Cache) : Cache :=
  if 30 < c.length then c.drop 10 else c

/-- background.js line 282, the regex match of a numbered list line against
the pattern of a leading ordinal marker: one or more digits, a dot, optional
whitespace, then at least one character, whose capture group is returned.
Greedy digits need no backtracking because a shorter digit prefix is followed
by a digit, never by the required dot. When everything after the dot is
whitespace, the greedy whitespace star backs off by one character so the
group is the final whitespace character. -/
def matchOrdinal (l : Str) : Option Str :=
  let ds := l.takeWhile Char.isDigit
  let r1 := l.dropWhile Char.isDigit
  if ds.isEmpty then none
  else
    match r1 with
    | '.' :: t =>
      let g := t.dropWhile isJsWs
      if g.isEmpty then
        match t.getLast? with
        | none => none
        | some c => some [c]
      else some g
    | _ => none

/-- background.js line 287, replace of the anchored quote alternation: remove
at most one leading and at most one trailing double or single quote. -/
def stripQuotes (l : Str) : Str :=
  let l1 := match l with
    | c :: t => if c = '"' || c = '\x27' then t else l
    | [] => []
  match l1.getLast? with
  | some c => if c = '"' || c = '\x27' then l1.dropLast else l1
  | none => l1

/-- JavaScript String.prototype.split on the single newline character. -/
def splitNl : Str → List Str
  | [] => [[]]
  | '\n' :: t => [] :: splitNl t
  | c :: t =>
    match splitNl t with
    | h :: r => (c :: h) :: r
    | [] => [[c]]

/-- background.js lines 280-295, the accumulation loop over the non-blank
lines: push the trimmed, quote-stripped capture of each matching line,
stopping once three suggestions are collected. The accumulator is kept in
reverse order. -/
def parseLoop : List Str → List Str → List Str
  | [], acc => acc.reverse
  | l :: ls, acc =>
    match matchOrdinal l with
    | none => parseLoop ls acc
    | some g =>
      let s := stripQuotes (jsTrim g)
      let acc2 := s :: acc
      if 3 ≤ acc2.length then acc2.reverse else parseLoop ls acc2

/-- background.js parseAISuggestions (lines 275-302): split the response into
lines, keep the non-blank ones, and run the matching loop. -/
def parseAISuggestions (r : Str) : List Str :=
  parseLoop ((splitNl r).filter (fun l => !(jsTrim l).isEmpty)) []

/-- background.js getFallbackSuggestions (lines 305-311). -/
def fallbackSuggestions : Suggs :=
  [toL ("Summarize this page"), toL ("What are the main points?"),
   toL ("Explain this in simple terms")]

/-- Outcome of one generateAISuggestions call: the returned triple, the cache
afterwards, and whether the generator (a provider session prompt) was
invoked. -/
structure GenOut where
  suggestions : Suggs
  cache : Cache
  invoked : Bool
deriving DecidableEq

/-- background.js generateAISuggestions (lines 182-261), the cache-and-parse
logic: on a cache hit return the stored triple without generating; on a miss
run the generator (its textual output is the response argument; availability
is assumed reported available, otherwise the function falls back before
generating), parse it, and cache the result only when exactly three
suggestions were parsed, returning the fixed fallback triple otherwise. -/
def generateAISuggestions (cache : Cache) (k : Key) (response : Str) :
    GenOut :=
  match jsMapGet cache k with
  | some s => ⟨s, cache, false⟩
  | none =>
    if (parseAISuggestions response).length = 3 then
      ⟨parseAISuggestions response,
       (cacheInsert cache k (parseAISuggestions response)).1, true⟩
    else ⟨fallbackSuggestions, cache, true⟩

/-- background.js lines 525-527 together with line 84: store the provider
session handle in the activeSessions map under the session id, when one was
supplied; a falsy (absent or empty) id skips registration. Map.set semantics
replace any existing entry for the id. -/
def registerSession (tbl : List (Key × Nat)) (sessionId : Option Key)
    (handle : Nat) : List (Key × Nat) :=
  match sessionId with
  | some sid => if sid.isEmpty then tbl else jsMapSet tbl sid handle
  | none => tbl

/-- State of one generation request after the provider session has been
created and registered (background.js lines 522-527): whether the id is still
in the activeSessions map, how many times session.destroy has been invoked
for this provider handle, the value cancelSession returned if it was called
during the run, the accumulated fullResponse, and the delivered
streamingResponse messages as (chunk index, fullResponse) pairs. -/
structure St where
  active : Bool
  destroys : Nat
  cancelRet : Option Bool
  full : Str
  dels : List (Nat × Str)
deriving DecidableEq

/-- background.js cancelSession (lines 686-700), fired when the interleaving
point cAt equals the current suspension index i: if the id is in the map, the
handle is destroyed and the id removed, returning true; otherwise it returns
false. The destroy call of cancelSession is modelled as succeeding. -/
def fireCancel (cAt : Option Nat) (i : Nat) (s : St) : St :=
  if cAt = some i then
    if s.active then
      { s with active := false, destroys := s.destroys + 1,
               cancelRet := some true }
    else { s with cancelRet := some false }
  else s

/-- background.js streamResponse loop (lines 640-670). Suspension points are
indexed by the number of chunks already handled; a cancelSession call can
interleave at each of them (cAt). Each iteration first applies a pending
cancel, then checks whether the id is still in the map, breaking without
accumulating or emitting the chunk if not; otherwise the chunk is appended to
fullResponse and, when a popup connection exists at that point (conn),
delivered as a streamingResponse message. -/
def go (conn : Nat → Bool) (cAt : Option Nat) :
    List Str → Nat → St → St
  | [], i, s => fireCancel cAt i s
  | c :: rest, i, s =>
    if (fireCancel cAt i s).active then
      if conn i then
        go conn cAt rest (i + 1)
          { fireCancel cAt i s with
            full := (fireCancel cAt i s).full ++ c,
            dels := (fireCancel cAt i s).dels
              ++ [(i, (fireCancel cAt i s).full ++ c)] }
      else
        go conn cAt rest (i + 1)
          { fireCancel cAt i s with
            full := (fireCancel cAt i s).full ++ c }
    else fireCancel cAt i s

/-- background.js lines 539-553, the finally block of handlePromptAPI: the
session handle is non-null, so session.destroy() is invoked (a throw from a
handle already destroyed by cancelSession is caught and logged), and the id
is removed from activeSessions if still present. -/
def finalize (s : St) : St :=
  { s with destroys := s.destroys + 1, active := false }

/-- State right after session creation and registration: id active, no
destroy yet, no cancel observed, empty response, nothing delivered. -/
def initSt : St := ⟨true, 0, none, [], []⟩

/-- One complete run of handlePromptAPI from session registration to the end
of its finally block, for a given provider chunk sequence, cancel-interleaving
point and popup-connection history. -/
def runPrompt (chunks : List Str) (cAt : Option Nat) (conn : Nat → Bool) :
    St :=
  finalize (go conn cAt chunks 0 initSt)

/-- The whitespace collapse of cleanText never outputs a newline, so the
subsequent source replace of newline-bounded whitespace runs is the
identity. -/
theorem collapseWs_no_newline (b : Bool) (s : Str) :
    ('\n') ∉ collapseWsAux b s := by
  induction s generalizing b with
  | nil => simp [collapseWsAux]
  | cons c t ih =>
    by_cases h : isJsWs c
    · cases b <;> simp [collapseWsAux, h] <;> exact ih true
    · have hc : c ≠ '\n' := by
        intro he; subst he; simp [isJsWs] at h
      simp [collapseWsAux, h, Ne.symm hc]
      exact ih false

/-- Claim C3: checkAPIAvailability is a total deterministic function of the
probed provider state; each of the four known provider availability values
and the absent-capability case is mapped to its one fixed status/message
pair, the absent capability to the api-not-found result (realised in the
source as the reason field API_NOT_FOUND), and a throwing availability call
to the error result. -/
theorem c3_availability_mapping :
    checkAPIAvailability .absent =
      ⟨false, none, some ("API_NOT_FOUND"),
       "Chrome Prompt API is not available. Please ensure you have Chrome 138+"⟩ ∧
    checkAPIAvailability (.reports ("available")) =
      ⟨true, some ("ready"), none, "AI model is ready to use."⟩ ∧
    checkAPIAvailability (.reports ("downloadable")) =
      ⟨true, some ("downloadable"), none,
       "AI model needs to be downloaded before first use."⟩ ∧
    checkAPIAvailability (.reports ("downloading")) =
      ⟨false, some ("downloading"), none,
       "AI model is currently downloading. Please wait."⟩ ∧
    checkAPIAvailability (.reports ("unavailable")) =
      ⟨false, some ("unavailable"), none,
       "AI model is not available on this device."⟩ ∧
    (∀ m : String, checkAPIAvailability (.throws m) =
      ⟨false, none, some ("ERROR"), "Error checking availability: " ++ m⟩) := by
  refine ⟨rfl, by decide, by decide, by decide, by decide, fun m => rfl⟩

/-- Claim C8: the content-agent readiness check returns false with zero probes
and zero injections on a restricted locator; it never performs more than two
probes or more than one injection attempt; a ready first probe returns true
after one probe with no injection; and when the first probe fails and the
injection succeeds, the verdict is exactly the second probe outcome, reached
after the single 500ms settle delay. -/
theorem c8_ensure_ready_probe_bounds (url : Option Str) (env : ProbeEnv) :
    (isRestrictedUrl url = true →
      ensureContentScript url env = ⟨false, 0, 0, []⟩) ∧
    (ensureContentScript url env).probes ≤ 2 ∧
    (ensureContentScript url env).injections ≤ 1 ∧
    (isRestrictedUrl url = false → env.probe1 = true →
      ensureContentScript url env = ⟨true, 1, 0, []⟩) ∧
    (isRestrictedUrl url = false → env.probe1 = false → env.injectOk = true →
      ensureContentScript url env = ⟨env.probe2, 2, 1, [500]⟩) := by
  by_cases h1 : isRestrictedUrl url <;> by_cases h2 : env.probe1 <;>
    by_cases h3 : env.injectOk <;>
    simp [ensureContentScript, h1, h2, h3]

/-- Witness for c8_ensure_ready_probe_bounds on a regular https locator with a
failing first probe and a successful injection. -/
theorem c8_ensure_ready_probe_bounds_witness :
    isRestrictedUrl (some (toL ("https://example.com"))) = false ∧
    ensureContentScript (some (toL ("https://example.com")))
        ⟨false, true, true⟩ = ⟨true, 2, 1, [500]⟩ :=
  ⟨by decide,
   (c8_ensure_ready_probe_bounds (some (toL ("https://example.com")))
      ⟨false, true, true⟩).2.2.2.2 (by decide) rfl rfl⟩

/-- The whitespace collapse leaves a run of non-whitespace characters
unchanged. -/
theorem collapseWs_replicate (n : Nat) (b : Bool) :
    collapseWsAux b (List.replicate n 'a') = List.replicate n 'a' := by
  induction n generalizing b with
  | zero => rfl
  | succ n ih =>
    rw [List.replicate_succ]
    show (if isJsWs 'a' then _ else 'a' :: collapseWsAux false (List.replicate n 'a')) = _
    rw [if_neg (by decide), ih]

/-- dropWhile on the whitespace class leaves a run of letters unchanged. -/
theorem dropWhile_ws_replicate (n : Nat) :
    List.dropWhile isJsWs (List.replicate n 'a') = List.replicate n 'a' := by
  cases n with
  | zero => rfl
  | succ n => rw [List.replicate_succ, List.dropWhile_cons, if_neg (by decide)]

/-- Trimming a run of letters is the identity. -/
theorem jsTrim_replicate (n : Nat) :
    jsTrim (List.replicate n 'a') = List.replicate n 'a' := by
  unfold jsTrim
  rw [dropWhile_ws_replicate, List.reverse_replicate, dropWhile_ws_replicate,
    List.reverse_replicate]

/-- Cleaning a run of letters is the identity. -/
theorem cleanText_replicate (n : Nat) :
    cleanText (List.replicate n 'a') = List.replicate n 'a' := by
  unfold cleanText
  rw [collapseWs_replicate, jsTrim_replicate]

/-- Claim C9: content extraction truncates the cleaned page content to exactly
its first 2000 characters followed by the ellipsis marker when it exceeds
2000 characters (so the result has exactly 2003 characters and the 2000-char
prefix of the cleaned content is a prefix of the result), and returns the
cleaned content unchanged when it has at most 2000 characters. -/
theorem c9_truncation_contract (raw : Str) :
    (2000 < (cleanText raw).length →
      extractPageContent raw = (cleanText raw).take 2000 ++ ellipsis ∧
      (extractPageContent raw).length = 2003 ∧
      (cleanText raw).take 2000 <+: extractPageContent raw) ∧
    ((cleanText raw).length ≤ 2000 → extractPageContent raw = cleanText raw) := by
  constructor
  · intro h
    have he : extractPageContent raw = (cleanText raw).take 2000 ++ ellipsis := by
      unfold extractPageContent limitContent
      rw [if_pos h]
    refine ⟨he, ?_, ?_⟩
    · rw [he, List.length_append]
      have ht : ((cleanText raw).take 2000).length = 2000 := by
        rw [List.length_take]; omega
      rw [ht]; decide
    · rw [he]; exact List.prefix_append _ _
  · intro h
    unfold extractPageContent limitContent
    rw [if_neg (by omega)]

/-- Witness for c9_truncation_contract: a 2500-character cleaned content is
truncated with the marker; a 2-character content is returned unchanged. -/
theorem c9_truncation_contract_witness :
    extractPageContent (List.replicate 2500 'a')
      = (cleanText (List.replicate 2500 'a')).take 2000 ++ ellipsis ∧
    extractPageContent (toL ("hi")) = cleanText (toL ("hi")) :=
  ⟨((c9_truncation_contract (List.replicate 2500 'a')).1
      (by rw [cleanText_replicate, List.length_replicate]; omega)).1,
   (c9_truncation_contract (toL ("hi"))).2 (by decide)⟩

/-- Claim C10: an absent locator (undefined or null) and the empty-string
locator are both classified restricted, so the readiness check returns false
with zero probes and zero injection attempts, regardless of the probe and
injection oracle. -/
theorem c10_absent_locator_restricted :
    isRestrictedUrl none = true ∧ isRestrictedUrl (some []) = true ∧
    (∀ env : ProbeEnv,
      ensureContentScript none env = ⟨false, 0, 0, []⟩ ∧
      ensureContentScript (some []) env = ⟨false, 0, 0, []⟩) :=
  ⟨rfl, rfl, fun _ => ⟨rfl, rfl⟩⟩


/-- Map.set followed by Map.get of the same key yields the stored value. -/
theorem jsMapGet_set_self {β : Type} (m : List (Key × β)) (k : Key) (v : β) :
    jsMapGet (jsMapSet m k v) k = some v := by
  induction m with
  | nil => simp [jsMapSet, jsMapGet]
  | cons p t ih =>
    by_cases hp : p.1 = k
    · simp [jsMapSet, jsMapGet, hp]
    · simp [jsMapSet, jsMapGet, hp, ih]

/-- Map.set leaves the lookup of every other key unchanged. -/
theorem jsMapGet_set_ne {β : Type} (m : List (Key × β)) (k k2 : Key) (v : β)
    (hne : k2 ≠ k) :
    jsMapGet (jsMapSet m k v) k2 = jsMapGet m k2 := by
  induction m with
  | nil => simp [jsMapSet, jsMapGet, Ne.symm hne]
  | cons p t ih =>
    by_cases hp : p.1 = k
    · simp [jsMapSet, jsMapGet, hp, Ne.symm hne]
    · by_cases hq : p.1 = k2
      · simp [jsMapSet, jsMapGet, hp, hq, hne]
      · simp [jsMapSet, jsMapGet, hp, hq, ih]

/-- Map.set on a present key keeps the map size. -/
theorem jsMapSet_length_mem {β : Type} (m : List (Key × β)) (k : Key) (v : β)
    (h : jsMapHas m k = true) :
    (jsMapSet m k v).length = m.length := by
  induction m with
  | nil => simp [jsMapHas] at h
  | cons p t ih =>
    by_cases hp : p.1 = k
    · simp [jsMapSet, hp]
    · simp only [jsMapHas, if_neg hp] at h
      simp [jsMapSet, hp, ih h]

/-- Map.set grows the map by at most one entry. -/
theorem jsMapSet_length_le {β : Type} (m : List (Key × β)) (k : Key) (v : β) :
    (jsMapSet m k v).length ≤ m.length + 1 := by
  induction m with
  | nil => simp [jsMapSet]
  | cons p t ih =>
    by_cases hp : p.1 = k
    · simp [jsMapSet, hp]
    · simp only [jsMapSet, if_neg hp, List.length_cons]
      omega

/-- Setting a key whose lookup misses appends the new entry at the end. -/
theorem jsMapSet_of_get_none {β : Type} (m : List (Key × β)) (k : Key) (v : β)
    (h : jsMapGet m k = none) : jsMapSet m k v = m ++ [(k, v)] := by
  induction m with
  | nil => rfl
  | cons p t ih =>
    by_cases hp : p.1 = k
    · simp [jsMapGet, hp] at h
    · simp only [jsMapGet, if_neg hp] at h
      simp [jsMapSet, hp, ih h]

/-- A miss on a cons cell is a miss on its tail. -/
theorem jsMapGet_tail_none {β : Type} (p : Key × β) (m : List (Key × β))
    (k : Key) (h : jsMapGet (p :: m) k = none) : jsMapGet m k = none := by
  by_cases hp : p.1 = k
  · simp [jsMapGet, hp] at h
  · simpa [jsMapGet, hp] using h

/-- Appending a fresh entry makes its key findable when every earlier key
misses. -/
theorem jsMapGet_append_new {β : Type} (m : List (Key × β)) (k : Key) (v : β)
    (h : jsMapGet m k = none) : jsMapGet (m ++ [(k, v)]) k = some v := by
  induction m with
  | nil => simp [jsMapGet]
  | cons p t ih =>
    by_cases hp : p.1 = k
    · simp [jsMapGet, hp] at h
    · simp only [jsMapGet, if_neg hp] at h
      simp only [List.cons_append, jsMapGet, if_neg hp]
      exact ih h

/-- After a miss-path insertion the inserted triple is found under its key,
also when the insertion evicted the oldest entry. -/
theorem cacheInsert_get_self (c : Cache) (k : Key) (v : Suggs)
    (h : jsMapGet c k = none) :
    jsMapGet (cacheInsert c k v).1 k = some v := by
  have hset : jsMapSet c k v = c ++ [(k, v)] := jsMapSet_of_get_none c k v h
  unfold cacheInsert
  rw [hset]
  by_cases hlen : 50 < (c ++ [(k, v)]).length
  · rw [if_pos hlen]
    cases c with
    | nil => simp at hlen
    | cons a t =>
      have hd : ((a :: t) ++ [(k, v)]).drop 1 = t ++ [(k, v)] := by simp
      show jsMapGet (((a :: t) ++ [(k, v)]).drop 1) k = some v
      rw [hd]
      exact jsMapGet_append_new t k v (jsMapGet_tail_none a t k h)
  · rw [if_neg hlen]
    show jsMapGet (c ++ [(k, v)]) k = some v
    exact jsMapGet_append_new c k v h


/-- Claim C4 counterexample: handlePromptAPI registers the new session with a
plain Map.set and no duplicate check, so a request supplying an id that is
already active silently replaces the prior entry instead of failing with an
error: starting from a table holding handle 1 under the id, registration of
handle 2 under the same id yields a table holding only handle 2. -/
theorem c4_counterexample :
    registerSession [(toL ("s"), 1)] (some (toL ("s"))) 2 = [(toL ("s"), 2)] ∧
    jsMapGet (registerSession [(toL ("s"), 1)] (some (toL ("s"))) 2)
      (toL ("s")) = some 2 := by
  decide

/-- Claim C4 (amended): when a generation request supplies a non-empty session
id that is already present in the active-session table, the new provider
handle replaces the prior entry in place: the id afterwards maps to the new
handle, the table size is unchanged, and every other id is unaffected; no
error is raised (the registration step is total). -/
theorem c4_duplicate_id_replaces (tbl : List (Key × Nat)) (sid : Key)
    (h2 : Nat) (hsid : sid ≠ []) (hdup : jsMapHas tbl sid = true) :
    jsMapGet (registerSession tbl (some sid) h2) sid = some h2 ∧
    (registerSession tbl (some sid) h2).length = tbl.length ∧
    (∀ k2 : Key, k2 ≠ sid →
      jsMapGet (registerSession tbl (some sid) h2) k2 = jsMapGet tbl k2) := by
  have hne : sid.isEmpty = false := by
    cases sid with
    | nil => exact absurd rfl hsid
    | cons a t => rfl
  have hreg : registerSession tbl (some sid) h2 = jsMapSet tbl sid h2 := by
    show (if sid.isEmpty = true then tbl else jsMapSet tbl sid h2)
        = jsMapSet tbl sid h2
    rw [hne]
    rfl
  rw [hreg]
  exact ⟨jsMapGet_set_self tbl sid h2, jsMapSet_length_mem tbl sid h2 hdup,
    fun k2 hk => jsMapGet_set_ne tbl sid k2 h2 hk⟩

/-- Witness for c4_duplicate_id_replaces on a two-entry table. -/
theorem c4_duplicate_id_replaces_witness :
    jsMapGet (registerSession [(toL ("s"), 1), (toL ("t"), 7)]
        (some (toL ("s"))) 2) (toL ("s")) = some 2 ∧
    (registerSession [(toL ("s"), 1), (toL ("t"), 7)]
        (some (toL ("s"))) 2).length
      = ([(toL ("s"), 1), (toL ("t"), 7)] : List (Key × Nat)).length :=
  ⟨(c4_duplicate_id_replaces [(toL ("s"), 1), (toL ("t"), 7)] (toL ("s")) 2
      (by decide) (by decide)).1,
   (c4_duplicate_id_replaces [(toL ("s"), 1), (toL ("t"), 7)] (toL ("s")) 2
      (by decide) (by decide)).2.1⟩

/-- One insertion keeps the cache within the 50-entry bound. -/
theorem cacheInsert_length_le (c : Cache) (k : Key) (v : Suggs)
    (h : c.length ≤ 50) : (cacheInsert c k v).1.length ≤ 50 := by
  have hle := jsMapSet_length_le c k v
  unfold cacheInsert
  by_cases hlen : 50 < (jsMapSet c k v).length
  · rw [if_pos hlen]
    show ((jsMapSet c k v).drop 1).length ≤ 50
    simp only [List.length_drop]
    omega
  · rw [if_neg hlen]
    show (jsMapSet c k v).length ≤ 50
    omega

/-- Claim C5: after any insertion completing on a cache of at most 50 entries
the cache again holds at most 50 entries, hence any insertion sequence from
the empty cache keeps the bound throughout; a miss-path insertion into a
50-entry cache evicts exactly the head entry, the one inserted earliest among
current members, keeping the remaining entries in insertion order followed by
the new entry; an insertion below the bound evicts nothing; and the periodic
cleanup removes exactly the 10 oldest entries when more than 30 are present
and nothing otherwise. -/
theorem c5_cache_bound_fifo :
    (∀ (c : Cache) (k : Key) (v : Suggs), c.length ≤ 50 →
      (cacheInsert c k v).1.length ≤ 50) ∧
    (∀ (c : Cache) (k : Key) (v : Suggs), jsMapGet c k = none →
      c.length = 50 →
      (cacheInsert c k v).2 = c.head?.map Prod.fst ∧
      (cacheInsert c k v).1 = c.tail ++ [(k, v)]) ∧
    (∀ (c : Cache) (k : Key) (v : Suggs), jsMapGet c k = none →
      c.length < 50 →
      (cacheInsert c k v).2 = none ∧ (cacheInsert c k v).1 = c ++ [(k, v)]) ∧
    (∀ ins : List (Key × Suggs),
      (ins.foldl (fun c p => (cacheInsert c p.1 p.2).1) []).length ≤ 50) ∧
    (∀ c : Cache, 30 < c.length →
      cacheCleanup c = c.drop 10 ∧ c = c.take 10 ++ cacheCleanup c) ∧
    (∀ c : Cache, c.length ≤ 30 → cacheCleanup c = c) := by
  refine ⟨fun c k v h => cacheInsert_length_le c k v h, ?_, ?_, ?_, ?_, ?_⟩
  · intro c k v hm h50
    have hset := jsMapSet_of_get_none c k v hm
    have hlen2 : 50 < (c ++ [(k, v)]).length := by
      simp [h50]
    have heq : cacheInsert c k v
        = ((c ++ [(k, v)]).drop 1, (c ++ [(k, v)]).head?.map Prod.fst) := by
      unfold cacheInsert
      rw [hset, if_pos hlen2]
    rw [heq]
    cases c with
    | nil => simp at h50
    | cons a t => exact ⟨by simp, by simp⟩
  · intro c k v hm h50
    have hset := jsMapSet_of_get_none c k v hm
    have hlen2 : ¬ 50 < (c ++ [(k, v)]).length := by
      simp only [List.length_append, List.length_cons, List.length_nil]
      omega
    have heq : cacheInsert c k v = (c ++ [(k, v)], none) := by
      unfold cacheInsert
      rw [hset, if_neg hlen2]
    rw [heq]
    exact ⟨rfl, rfl⟩
  · intro ins
    have hstep : ∀ (l : List (Key × Suggs)) (c : Cache), c.length ≤ 50 →
        (l.foldl (fun c p => (cacheInsert c p.1 p.2).1) c).length ≤ 50 := by
      intro l
      induction l with
      | nil => intro c h; simpa using h
      | cons p t ih =>
        intro c h
        exact ih _ (cacheInsert_length_le c p.1 p.2 h)
    exact hstep ins [] (by simp)
  · intro c h
    have hcl : cacheCleanup c = c.drop 10 := by
      unfold cacheCleanup
      rw [if_pos h]
    exact ⟨hcl, by rw [hcl]; exact (List.take_append_drop 10 c).symm⟩
  · intro c h
    unfold cacheCleanup
    rw [if_neg (by omega)]

/-- Witness for c5_cache_bound_fifo: a full 50-entry cache evicts its oldest
entry on insertion, and a 31-entry cache is pruned to its 21 newest by the
periodic cleanup. -/
theorem c5_cache_bound_fifo_witness :
    (cacheInsert ((List.range 50).map
        (fun i => (List.replicate i 'a', ([] : Suggs)))) (toL ("zz")) []).2
      = (((List.range 50).map
          (fun i => (List.replicate i 'a', ([] : Suggs)))).head?).map Prod.fst ∧
    cacheCleanup ((List.range 31).map
        (fun i => (List.replicate i 'b', ([] : Suggs))))
      = ((List.range 31).map
          (fun i => (List.replicate i 'b', ([] : Suggs)))).drop 10 :=
  ⟨(c5_cache_bound_fifo.2.1 ((List.range 50).map
      (fun i => (List.replicate i 'a', ([] : Suggs)))) (toL ("zz")) []
      (by decide) (by decide)).1,
   (c5_cache_bound_fifo.2.2.2.2.1 ((List.range 31).map
      (fun i => (List.replicate i 'b', ([] : Suggs)))) (by decide)).1⟩


/-- A cache hit returns the stored triple unchanged and does not invoke the
generator. -/
theorem gen_hit (cache : Cache) (k : Key) (r2 : Str) (s : Suggs)
    (h : jsMapGet cache k = some s) :
    generateAISuggestions cache k r2 = ⟨s, cache, false⟩ := by
  simp [generateAISuggestions, h]

/-- A cache miss always invokes the generator. -/
theorem gen_invoked_of_miss (cache : Cache) (k : Key) (r2 : Str)
    (h : jsMapGet cache k = none) :
    (generateAISuggestions cache k r2).invoked = true := by
  simp only [generateAISuggestions, h]
  split <;> rfl

/-- The accumulation loop of the suggestion parser computes the first three
images of the matching lines after the already-accumulated ones. -/
theorem parseLoop_eq (ls : List Str) (acc : List Str) (h : acc.length < 3) :
    parseLoop ls acc = acc.reverse ++
      (ls.filterMap
        (fun l => (matchOrdinal l).map (fun g => stripQuotes (jsTrim g)))).take
        (3 - acc.length) := by
  induction ls generalizing acc with
  | nil => simp [parseLoop]
  | cons l ls ih =>
    cases hm : matchOrdinal l with
    | none =>
      simp only [parseLoop, hm, List.filterMap_cons, Option.map_none']
      exact ih acc h
    | some g =>
      have hf : (fun l => (matchOrdinal l).map
          (fun g => stripQuotes (jsTrim g))) l
          = some (stripQuotes (jsTrim g)) := by
        simp [hm]
      by_cases h3 : 3 ≤ (stripQuotes (jsTrim g) :: acc).length
      · have hlen : acc.length = 2 := by
          simp only [List.length_cons] at h3
          omega
        simp only [parseLoop, hm, if_pos h3, List.filterMap_cons, hf,
          Option.map_some']
        rw [List.reverse_cons, hlen]
        rfl
      · have hlt : (stripQuotes (jsTrim g) :: acc).length < 3 :=
          Nat.lt_of_not_le h3
        have harith : 3 - acc.length
            = (3 - (stripQuotes (jsTrim g) :: acc).length) + 1 := by
          simp only [List.length_cons]
          simp only [List.length_cons] at hlt
          omega
        simp only [parseLoop, hm, if_neg h3, List.filterMap_cons, hf,
          Option.map_some']
        rw [ih _ hlt, harith, List.take_succ_cons, List.reverse_cons,
          List.append_assoc]
        rfl

/-- parseAISuggestions keeps exactly the first three quote-stripped captures
of the lines carrying a leading ordinal marker. -/
theorem parse_eq_take_three (r : Str) :
    parseAISuggestions r =
      (((splitNl r).filter (fun l => !(jsTrim l).isEmpty)).filterMap
        (fun l => (matchOrdinal l).map (fun g => stripQuotes (jsTrim g)))).take
        3 := by
  unfold parseAISuggestions
  rw [parseLoop_eq _ [] (by simp)]
  simp

/-- The parsed suggestion list never exceeds three entries. -/
theorem parse_length_le (r : Str) : (parseAISuggestions r).length ≤ 3 := by
  rw [parse_eq_take_three]
  simp only [List.length_take]
  omega

/-- Claim C6: suggestion parsing keeps only the lines matching a leading
ordinal marker, strips surrounding quote characters from the trimmed capture
of each kept line, and retains at most the first three matches; when exactly
three are parsed, they are returned and stored under the fingerprint; when
not exactly three are parsed, the fixed fallback triple is returned, the
cache is unchanged, and a later call with the same fingerprint invokes the
generator again (while after an exactly-three result a later call is a cache
hit that does not invoke it). -/
theorem c6_parse_and_cache (cache : Cache) (k : Key) (r : Str)
    (hmiss : jsMapGet cache k = none) :
    parseAISuggestions r =
      (((splitNl r).filter (fun l => !(jsTrim l).isEmpty)).filterMap
        (fun l => (matchOrdinal l).map (fun g => stripQuotes (jsTrim g)))).take
        3 ∧
    (parseAISuggestions r).length ≤ 3 ∧
    ((parseAISuggestions r).length = 3 →
      (generateAISuggestions cache k r).suggestions = parseAISuggestions r ∧
      jsMapGet (generateAISuggestions cache k r).cache k
        = some (parseAISuggestions r) ∧
      (∀ r2 : Str,
        (generateAISuggestions
          (generateAISuggestions cache k r).cache k r2).invoked = false)) ∧
    ((parseAISuggestions r).length ≠ 3 →
      (generateAISuggestions cache k r).suggestions = fallbackSuggestions ∧
      (generateAISuggestions cache k r).cache = cache ∧
      (∀ r2 : Str,
        (generateAISuggestions
          (generateAISuggestions cache k r).cache k r2).invoked = true)) := by
  refine ⟨parse_eq_take_three r, parse_length_le r, ?_, ?_⟩
  · intro h3
    have hgen : generateAISuggestions cache k r
        = ⟨parseAISuggestions r,
           (cacheInsert cache k (parseAISuggestions r)).1, true⟩ := by
      simp [generateAISuggestions, hmiss, h3]
    have hsome := cacheInsert_get_self cache k (parseAISuggestions r) hmiss
    refine ⟨by rw [hgen], ?_, ?_⟩
    · rw [hgen]
      exact hsome
    · intro r2
      rw [hgen]
      rw [gen_hit _ k r2 (parseAISuggestions r) hsome]
  · intro h3
    have hgen : generateAISuggestions cache k r
        = ⟨fallbackSuggestions, cache, true⟩ := by
      simp [generateAISuggestions, hmiss, h3]
    refine ⟨by rw [hgen], by rw [hgen], ?_⟩
    intro r2
    rw [hgen]
    exact gen_invoked_of_miss cache k r2 hmiss

/-- Witness for c6_parse_and_cache: a two-line generator output yields the
fallback triple and leaves the cache empty; a four-line output is parsed to
three suggestions and cached under the fingerprint. -/
theorem c6_parse_and_cache_witness :
    (generateAISuggestions [] [] (toL ("1. a\n2. b"))).suggestions
      = fallbackSuggestions ∧
    (generateAISuggestions [] [] (toL ("1. a\n2. b"))).cache = [] ∧
    jsMapGet (generateAISuggestions [] []
        (toL ("1. a\n2. b\n3. c\n4. d"))).cache []
      = some (parseAISuggestions (toL ("1. a\n2. b\n3. c\n4. d"))) :=
  ⟨((c6_parse_and_cache [] [] (toL ("1. a\n2. b")) rfl).2.2.2
      (by decide)).1,
   ((c6_parse_and_cache [] [] (toL ("1. a\n2. b")) rfl).2.2.2
      (by decide)).2.1,
   ((c6_parse_and_cache [] [] (toL ("1. a\n2. b\n3. c\n4. d")) rfl).2.2.1
      (by decide)).2.1⟩


/-- Applying a pending cancel never changes the accumulated response or the
delivered messages. -/
theorem fireCancel_full_dels (cAt : Option Nat) (i : Nat) (s : St) :
    (fireCancel cAt i s).full = s.full ∧
    (fireCancel cAt i s).dels = s.dels := by
  unfold fireCancel
  split
  · split <;> exact ⟨rfl, rfl⟩
  · exact ⟨rfl, rfl⟩

/-- When the cancel fires on an active session, the state becomes the
cancelled one. -/
theorem fireCancel_fires (cAt : Option Nat) (i : Nat) (s : St)
    (h : cAt = some i) (ha : s.active = true) :
    fireCancel cAt i s
      = { s with active := false, destroys := s.destroys + 1,
                 cancelRet := some true } := by
  unfold fireCancel
  rw [if_pos h, if_pos ha]

/-- When the interleaving point is elsewhere, the state is untouched. -/
theorem fireCancel_skip (cAt : Option Nat) (i : Nat) (s : St)
    (h : cAt ≠ some i) : fireCancel cAt i s = s := by
  unfold fireCancel
  rw [if_neg h]

/-- Unfolding of the streaming loop on an empty chunk sequence. -/
theorem go_nil (conn : Nat → Bool) (cAt : Option Nat) (i : Nat) (s : St) :
    go conn cAt [] i s = fireCancel cAt i s := rfl

/-- Unfolding of the streaming loop when the id is still active after a
pending cancel was applied. -/
theorem go_cons_active (conn : Nat → Bool) (cAt : Option Nat) (c : Str)
    (rest : List Str) (i : Nat) (s : St)
    (ha : (fireCancel cAt i s).active = true) :
    go conn cAt (c :: rest) i s
      = if conn i = true then
          go conn cAt rest (i + 1)
            ⟨(fireCancel cAt i s).active, (fireCancel cAt i s).destroys,
             (fireCancel cAt i s).cancelRet, (fireCancel cAt i s).full ++ c,
             (fireCancel cAt i s).dels
               ++ [(i, (fireCancel cAt i s).full ++ c)]⟩
        else go conn cAt rest (i + 1)
          ⟨(fireCancel cAt i s).active, (fireCancel cAt i s).destroys,
           (fireCancel cAt i s).cancelRet, (fireCancel cAt i s).full ++ c,
           (fireCancel cAt i s).dels⟩ := by
  simp only [go]
  rw [if_pos ha]

/-- Unfolding of the streaming loop when the id was cancelled: the loop
breaks, discarding the chunk. -/
theorem go_cons_inactive (conn : Nat → Bool) (cAt : Option Nat) (c : Str)
    (rest : List Str) (i : Nat) (s : St)
    (ha : (fireCancel cAt i s).active = false) :
    go conn cAt (c :: rest) i s = fireCancel cAt i s := by
  simp only [go]
  rw [if_neg (by rw [ha]; exact Bool.false_ne_true)]

/-- Through the whole streaming loop, a run started active with no destroy
and no cancel observed ends either still active with no destroy and no
cancel, or cancelled with exactly one destroy recorded by cancelSession. -/
theorem go_state_cases (conn : Nat → Bool) (cAt : Option Nat) :
    ∀ (chunks : List Str) (i : Nat) (s : St),
      s.active = true → s.destroys = 0 → s.cancelRet = none →
      ((go conn cAt chunks i s).active = true ∧
        (go conn cAt chunks i s).destroys = 0 ∧
        (go conn cAt chunks i s).cancelRet = none) ∨
      ((go conn cAt chunks i s).active = false ∧
        (go conn cAt chunks i s).destroys = 1 ∧
        (go conn cAt chunks i s).cancelRet = some true) := by
  intro chunks
  induction chunks with
  | nil =>
    intro i s ha hd hc
    by_cases h : cAt = some i
    · rw [go_nil, fireCancel_fires cAt i s h ha]
      right
      refine ⟨rfl, ?_, rfl⟩
      show s.destroys + 1 = 1
      omega
    · rw [go_nil, fireCancel_skip cAt i s h]
      left
      exact ⟨ha, hd, hc⟩
  | cons c rest ih =>
    intro i s ha hd hc
    by_cases h : cAt = some i
    · have hf := fireCancel_fires cAt i s h ha
      have hact : (fireCancel cAt i s).active = false := by rw [hf]
      rw [go_cons_inactive conn cAt c rest i s hact, hf]
      right
      refine ⟨rfl, ?_, rfl⟩
      show s.destroys + 1 = 1
      omega
    · have hf := fireCancel_skip cAt i s h
      have hact : (fireCancel cAt i s).active = true := by rw [hf]; exact ha
      rw [go_cons_active conn cAt c rest i s hact, hf]
      by_cases hcn : conn i = true
      · rw [if_pos hcn]
        exact ih (i + 1) _ ha hd hc
      · rw [if_neg hcn]
        exact ih (i + 1) _ ha hd hc


/-- Once the cancel has fired at interleaving point kpt, every delivered
message was delivered at an earlier chunk index. -/
theorem go_no_dels_after_cancel (conn : Nat → Bool) (kpt : Nat) :
    ∀ (chunks : List Str) (i : Nat) (s : St),
      s.active = true → s.cancelRet = none →
      (∀ p ∈ s.dels, p.1 < i) →
      (go conn (some kpt) chunks i s).cancelRet = some true →
      ∀ p ∈ (go conn (some kpt) chunks i s).dels, p.1 < kpt := by
  intro chunks
  induction chunks with
  | nil =>
    intro i s ha hc hdels hcr
    by_cases h : (some kpt : Option Nat) = some i
    · have hki : kpt = i := Option.some.inj h
      rw [go_nil, fireCancel_fires (some kpt) i s h ha]
      intro p hp
      rw [hki]
      exact hdels p hp
    · rw [go_nil, fireCancel_skip (some kpt) i s h] at hcr
      rw [hc] at hcr
      exact absurd hcr (by simp)
  | cons c rest ih =>
    intro i s ha hc hdels hcr
    by_cases h : (some kpt : Option Nat) = some i
    · have hki : kpt = i := Option.some.inj h
      have hf := fireCancel_fires (some kpt) i s h ha
      have hact : (fireCancel (some kpt) i s).active = false := by rw [hf]
      rw [go_cons_inactive conn (some kpt) c rest i s hact, hf]
      intro p hp
      rw [hki]
      exact hdels p hp
    · have hf := fireCancel_skip (some kpt) i s h
      have hact : (fireCancel (some kpt) i s).active = true := by
        rw [hf]; exact ha
      rw [go_cons_active conn (some kpt) c rest i s hact, hf] at hcr ⊢
      by_cases hcn : conn i = true
      · rw [if_pos hcn] at hcr ⊢
        refine ih (i + 1) _ ha hc ?_ hcr
        intro p hp
        show p.1 < i + 1
        rcases List.mem_append.mp hp with hold | hnew
        · exact Nat.lt_succ_of_lt (hdels p hold)
        · have : p = (i, s.full ++ c) := by simpa using hnew
          rw [this]
          exact Nat.lt_succ_self i
      · rw [if_neg hcn] at hcr ⊢
        refine ih (i + 1) _ ha hc ?_ hcr
        intro p hp
        exact Nat.lt_succ_of_lt (hdels p hp)

/-- An element of getLast? is a member of the list. -/
theorem mem_of_getLast_opt {α : Type} {l : List α} {x : α}
    (h : x ∈ l.getLast?) : x ∈ l := by
  obtain ⟨hne, hx⟩ := List.mem_getLast?_eq_getLast h
  rw [hx]
  exact List.getLast_mem hne

/-- Invariant of the streaming loop: every delivered fullResponse is a prefix
of the accumulated response, and consecutive delivered fullResponse values
stand in any relation R that extends prefixes across an appended chunk
(instantiated with plain and with strict prefix-extension). -/
theorem go_chain_invariant (conn : Nat → Bool) (cAt : Option Nat)
    (P : Str → Prop) (R : Str → Str → Prop)
    (hR : ∀ (x f c : Str), P c → x <+: f → R x (f ++ c)) :
    ∀ (chunks : List Str) (i : Nat) (s : St),
      (∀ c ∈ chunks, P c) →
      (∀ m ∈ s.dels.map Prod.snd, m <+: s.full) →
      List.Chain' R (s.dels.map Prod.snd) →
      ((∀ m ∈ (go conn cAt chunks i s).dels.map Prod.snd,
          m <+: (go conn cAt chunks i s).full) ∧
        List.Chain' R ((go conn cAt chunks i s).dels.map Prod.snd)) := by
  intro chunks
  induction chunks with
  | nil =>
    intro i s hP hpre hch
    rw [go_nil]
    rw [(fireCancel_full_dels cAt i s).1, (fireCancel_full_dels cAt i s).2]
    exact ⟨hpre, hch⟩
  | cons c rest ih =>
    intro i s hP hpre hch
    by_cases hact : (fireCancel cAt i s).active = true
    · rw [go_cons_active conn cAt c rest i s hact,
        (fireCancel_full_dels cAt i s).1, (fireCancel_full_dels cAt i s).2]
      have hPc : P c := hP c (List.mem_cons_self c rest)
      have hPrest : ∀ x ∈ rest, P x := fun x hx => hP x (List.mem_cons_of_mem c hx)
      by_cases hcn : conn i = true
      · rw [if_pos hcn]
        refine ih (i + 1) _ hPrest ?_ ?_
        · intro m hm
          show m <+: s.full ++ c
          rw [List.map_append] at hm
          rcases List.mem_append.mp hm with hold | hnew
          · exact (hpre m hold).trans (List.prefix_append s.full c)
          · have : m = s.full ++ c := by simpa using hnew
            rw [this]
        · show List.Chain' R ((s.dels ++ [(i, s.full ++ c)]).map Prod.snd)
          rw [List.map_append]
          rw [List.chain'_append]
          refine ⟨hch, List.chain'_singleton _, ?_⟩
          intro x hx y hy
          have hy2 : s.full ++ c = y := by simpa using hy
          have hx2 : x ∈ s.dels.map Prod.snd := mem_of_getLast_opt hx
          rw [← hy2]
          exact hR x s.full c hPc (hpre x hx2)
      · rw [if_neg hcn]
        refine ih (i + 1) _ hPrest ?_ ?_
        · intro m hm
          show m <+: s.full ++ c
          exact (hpre m hm).trans (List.prefix_append s.full c)
        · exact hch
    · have hact2 : (fireCancel cAt i s).active = false := by
        revert hact
        cases (fireCancel cAt i s).active <;> simp
      rw [go_cons_inactive conn cAt c rest i s hact2,
        (fireCancel_full_dels cAt i s).1, (fireCancel_full_dels cAt i s).2]
      exact ⟨hpre, hch⟩


/-- Claim C1 counterexample: when a cancelSession call interleaves at the
first chunk boundary of a one-chunk run, cancelSession returns true and the
provider handle sees session.destroy invoked twice in total, once by
cancelSession and once more by the finally cleanup of handlePromptAPI, so the
handle is not released exactly once. -/
theorem c1_counterexample :
    (runPrompt [toL ("a")] (some 0) (fun _ => true)).cancelRet = some true ∧
    (runPrompt [toL ("a")] (some 0) (fun _ => true)).destroys = 2 := by
  decide

/-- Claim C1 (amended): once the provider session has been created and
registered, every terminal path invokes session.destroy; it is invoked
exactly once when no successful cancel interleaves with the run, and exactly
twice when cancelSession succeeds for the id (once inside cancelSession and
once more by the request cleanup, whose repeated call is caught); in every
case the id is absent from the active-session table afterwards. -/
theorem c1_destroy_count (chunks : List Str) (cAt : Option Nat)
    (conn : Nat → Bool) :
    (runPrompt chunks cAt conn).destroys
      = (if (runPrompt chunks cAt conn).cancelRet = some true then 2 else 1) ∧
    (runPrompt chunks cAt conn).active = false := by
  unfold runPrompt
  rcases go_state_cases conn cAt chunks 0 initSt rfl rfl rfl with
    ⟨h1, h2, h3⟩ | ⟨h1, h2, h3⟩
  · constructor
    · show (go conn cAt chunks 0 initSt).destroys + 1 = _
      have hcr : (finalize (go conn cAt chunks 0 initSt)).cancelRet = none := h3
      rw [h2, if_neg (by rw [hcr]; simp)]
    · rfl
  · constructor
    · show (go conn cAt chunks 0 initSt).destroys + 1 = _
      have hcr : (finalize (go conn cAt chunks 0 initSt)).cancelRet
          = some true := h3
      rw [h2, if_pos hcr]
    · rfl

/-- Claim C2: when cancelSession succeeded at chunk boundary kpt, every
delivered streamingResponse message for the id was delivered at an earlier
chunk index; the chunk observed at or after the cancel is discarded without
being emitted. -/
theorem c2_no_stream_after_cancel (chunks : List Str) (kpt : Nat)
    (conn : Nat → Bool)
    (hc : (runPrompt chunks (some kpt) conn).cancelRet = some true) :
    ∀ p ∈ (runPrompt chunks (some kpt) conn).dels, p.1 < kpt := by
  have hcr : (go conn (some kpt) chunks 0 initSt).cancelRet = some true := hc
  intro p hp
  exact go_no_dels_after_cancel conn kpt chunks 0 initSt rfl rfl
    (by intro q hq; simp [initSt] at hq) hcr p hp

/-- Witness for c2_no_stream_after_cancel: a three-chunk run cancelled at the
third boundary delivers only the first two chunks. -/
theorem c2_no_stream_after_cancel_witness :
    (runPrompt [toL ("a"), toL ("b"), toL ("c")] (some 2)
        (fun _ => true)).cancelRet = some true ∧
    ∀ p ∈ (runPrompt [toL ("a"), toL ("b"), toL ("c")] (some 2)
        (fun _ => true)).dels, p.1 < 2 :=
  ⟨by decide,
   c2_no_stream_after_cancel [toL ("a"), toL ("b"), toL ("c")] 2
     (fun _ => true) (by decide)⟩

/-- Claim C7 counterexample: with provider chunk sequence ["a", ""] the two
delivered fullResponse values are equal, so the delivered sequence is not
strictly prefix-increasing as the claim states. -/
theorem c7_counterexample :
    ((runPrompt [toL ("a"), []] none (fun _ => true)).dels.map Prod.snd)
      = [toL ("a"), toL ("a")] ∧
    ¬ List.Chain' (fun a b => a <+: b ∧ a ≠ b) [toL ("a"), toL ("a")] := by
  constructor
  · decide
  · intro h
    rw [List.chain'_cons] at h
    exact h.1.2 rfl

/-- Claim C7 (amended): for every run, the sequence of fullResponse values
carried by the delivered streamingResponse messages is prefix-increasing:
each delivered value has the previous one as a prefix, and whenever every
emitted chunk is nonempty the increase is strict (an empty chunk repeats the
previous value). -/
theorem c7_prefix_monotone (chunks : List Str) (cAt : Option Nat)
    (conn : Nat → Bool) :
    List.Chain' (fun a b => a <+: b)
      ((runPrompt chunks cAt conn).dels.map Prod.snd) ∧
    ((∀ c ∈ chunks, c ≠ []) →
      List.Chain' (fun a b => a <+: b ∧ a ≠ b)
        ((runPrompt chunks cAt conn).dels.map Prod.snd)) := by
  constructor
  · exact (go_chain_invariant conn cAt (fun _ => True) (fun a b => a <+: b)
      (fun x f c _ hx => hx.trans (List.prefix_append f c))
      chunks 0 initSt (fun _ _ => trivial)
      (by intro m hm; simp [initSt] at hm) (by simp [initSt])).2
  · intro hne
    refine (go_chain_invariant conn cAt (fun c => c ≠ [])
      (fun a b => a <+: b ∧ a ≠ b) ?_ chunks 0 initSt hne
      (by intro m hm; simp [initSt] at hm) (by simp [initSt])).2
    intro x f c hc hx
    refine ⟨hx.trans (List.prefix_append f c), ?_⟩
    intro heq
    have h1 := hx.length_le
    rw [heq, List.length_append] at h1
    have h2 : 0 < c.length := List.length_pos.mpr hc
    omega

/-- Witness for c7_prefix_monotone: two nonempty chunks produce a strictly
prefix-increasing delivered sequence. -/
theorem c7_prefix_monotone_witness :
    List.Chain' (fun a b => a <+: b ∧ a ≠ b)
      ((runPrompt [toL ("a"), toL ("b")] none
        (fun _ => true)).dels.map Prod.snd) :=
  (c7_prefix_monotone [toL ("a"), toL ("b")] none (fun _ => true)).2
    (by decide)

end AuraPrompt
